import Mathlib

/-
Verification development for the tree-gen runtime base library
(src/include/tree-base.hpp): typed tree structures with owning edges
(Maybe "?", One "1", Any "*", Many "+") and non-owning link edges
(OptLink "@", Link "$"), a two-phase well-formedness validator, and a
tagged-map (de)serialization protocol.

Modelling conventions:
- Node identity (C++ shared_ptr object identity) is a natural-number
  handle into an explicit heap `Heap := List (NodeId × Node)`.
- Each C++ edge object of template type T is modelled by an `Edge`
  value carrying `tname : String` for `typeid(T).name()`.
- C++ exceptions become an `Except Err` result; `Err` distinguishes the
  dynamic exception types RuntimeError, NotWellFormed and OutOfRange.
- Recursion through the heap is fuel-indexed (the C++ recursion has no
  bound; every theorem below either holds for all fuel values or is
  evaluated at a concrete, sufficient fuel).
- The abstract CBOR writer/reader (tree-cbor, out of scope in the spec)
  is modelled by the value tree `CValue` of maps, arrays, strings,
  integers and null.
-/

namespace TreeBase

/-- Node identity: stands for the raw pointer of the C++ node object. -/
abbrev NodeId := Nat

/-- Error taxonomy, one constructor per dynamic C++ exception type:
RuntimeError (generic/schema errors), NotWellFormed (structural errors,
a subclass of RuntimeError in the source but a distinct dynamic type),
and OutOfRange (bounds/empty-dereference errors). -/
inductive Err where
  | runtimeError (msg : String)
  | notWellFormed (msg : String)
  | outOfRange (msg : String)
deriving DecidableEq, Repr

/-- Edge containers, translated from tree-base.hpp. `tname` models
`typeid(T).name()` of the static element type. Owning single-child
edges (`maybe`, `one`) hold an optional node; owning sequence edges
(`anyE`, `manyE`) hold a vector of One elements, each itself possibly
empty; link edges (`optlink`, `link`) hold a weak reference, modelled
as an optional node id. -/
inductive Edge where
  | maybe (tname : String) (val : Option NodeId)
  | one (tname : String) (val : Option NodeId)
  | anyE (tname : String) (vec : List (Option NodeId))
  | manyE (tname : String) (vec : List (Option NodeId))
  | optlink (tname : String) (val : Option NodeId)
  | link (tname : String) (val : Option NodeId)
deriving DecidableEq, Repr

/-- A tree node: its generated-class content is its list of edge
members (scalar fields play no role in the claims). -/
structure Node where
  edges : List Edge
deriving DecidableEq, Repr

/-- The arena of live nodes, keyed by node identity. -/
abbrev Heap := List (NodeId × Node)

/-- Looks a node up by identity (dereferencing the shared_ptr). -/
def lookupNode (h : Heap) (i : NodeId) : Option Node :=
  List.lookup i h

/-- PointerMap contents: the registered node identities in registration
order, so that the sequence number of an identity is its index. -/
abbrev PM := List NodeId

/-- Modelled from the spec: `PointerMap::add_raw` (defined in
tree-base.cpp, not under src/). Registers a node identity with the next
sequence number; a duplicate registration is an aliasing violation and
fails with NotWellFormed. Returns the updated map and the assigned
sequence number. -/
def pmAdd (m : PM) (p : NodeId) (tname : String) : Except Err (PM × Nat) :=
  if p ∈ m then
    .error (.notWellFormed ("duplicate node of type " ++ tname))
  else
    .ok (m ++ [p], m.length)

/-- Modelled from the spec: `PointerMap::get_raw` (defined in
tree-base.cpp, not under src/). Looks up the sequence number of a
previously registered identity; a lookup failure (including the null
pointer of an empty link, which is never registered) is the detection
mechanism for dangling or foreign links and fails with NotWellFormed,
naming the referring edge element type. -/
def pmGet (m : PM) (p : Option NodeId) (tname : String) : Except Err Nat :=
  match p with
  | none =>
      .error (.notWellFormed ("link to node of type " ++ tname ++ " not reachable from the root"))
  | some q =>
      if q ∈ m then .ok (m.indexOf q)
      else .error (.notWellFormed ("link to node of type " ++ tname ++ " not reachable from the root"))

/-- Work items of the Phase-1 reachability traversal: a node edge list
(the generated `Base::find_reachable` visiting all edge members), a
single edge, the One elements of an Any/Many vector, and the fill of a
Maybe/One edge (`Maybe::find_reachable`). -/
inductive FRTask where
  | edges (es : List Edge)
  | edge (e : Edge)
  | elems (tname : String) (xs : List (Option NodeId))
  | fill (tname : String) (v : Option NodeId)
deriving Repr

/-- Phase 1, `find_reachable`, translated from tree-base.hpp: a
depth-first traversal following only owning edges. `Maybe::find_reachable`
registers the held node then recurses into it; `Any::find_reachable`
does so per element; `OptLink::find_reachable` does nothing. The node
level (generated code) visits each edge member in order. -/
def fr (h : Heap) : Nat → FRTask → PM → Except Err PM
  | 0, _, _ => .error (.runtimeError "recursion limit reached")
  | _fuel+1, .edges [], m => .ok m
  | fuel+1, .edges (e :: es), m =>
      match fr h fuel (.edge e) m with
      | .error err => .error err
      | .ok m1 => fr h fuel (.edges es) m1
  | fuel+1, .edge (.maybe t v), m => fr h fuel (.fill t v) m
  | fuel+1, .edge (.one t v), m => fr h fuel (.fill t v) m
  | fuel+1, .edge (.anyE t v), m => fr h fuel (.elems t v) m
  | fuel+1, .edge (.manyE t v), m => fr h fuel (.elems t v) m
  | _fuel+1, .edge (.optlink _ _), m => .ok m
  | _fuel+1, .edge (.link _ _), m => .ok m
  | _fuel+1, .elems _ [], m => .ok m
  | fuel+1, .elems t (x :: xs), m =>
      match fr h fuel (.fill t x) m with
      | .error err => .error err
      | .ok m1 => fr h fuel (.elems t xs) m1
  | _fuel+1, .fill _ none, m => .ok m
  | fuel+1, .fill t (some i), m =>
      match pmAdd m i t with
      | .error err => .error err
      | .ok (m1, _) =>
          match lookupNode h i with
          | none => .error (.runtimeError "owning edge points outside the heap")
          | some nd => fr h fuel (.edges nd.edges) m1

/-- The depth-first pre-order of node identities reached from a task by
following only owning edges: the specification the successful Phase-1
traversal is compared against. Link edges contribute nothing. -/
def po (h : Heap) : Nat → FRTask → List NodeId
  | 0, _ => []
  | _fuel+1, .edges [] => []
  | fuel+1, .edges (e :: es) => po h fuel (.edge e) ++ po h fuel (.edges es)
  | fuel+1, .edge (.maybe t v) => po h fuel (.fill t v)
  | fuel+1, .edge (.one t v) => po h fuel (.fill t v)
  | fuel+1, .edge (.anyE t v) => po h fuel (.elems t v)
  | fuel+1, .edge (.manyE t v) => po h fuel (.elems t v)
  | _fuel+1, .edge (.optlink _ _) => []
  | _fuel+1, .edge (.link _ _) => []
  | _fuel+1, .elems _ [] => []
  | fuel+1, .elems t (x :: xs) => po h fuel (.fill t x) ++ po h fuel (.elems t xs)
  | _fuel+1, .fill _ none => []
  | fuel+1, .fill _t (some i) =>
      i :: (match lookupNode h i with
            | none => []
            | some nd => po h fuel (.edges nd.edges))

/-- Work items of the Phase-2 completeness check. -/
inductive CCTask where
  | edges (es : List Edge)
  | edge (e : Edge)
  | elems (tname : String) (xs : List (Option NodeId))
  | node (i : NodeId)
deriving Repr

/-- Phase 2, `check_complete`, translated from tree-base.hpp:
`Maybe::check_complete` recurses when filled; `One::check_complete`
fails with NotWellFormed when empty; `Any::check_complete` checks each
One element; `Many::check_complete` additionally fails when the vector
is empty; `OptLink::check_complete` requires a filled link target to be
registered in the Phase-1 map; `Link::check_complete` additionally
fails when empty. The node level visits each edge member in order. -/
def cc (h : Heap) (m : PM) : Nat → CCTask → Except Err Unit
  | 0, _ => .error (.runtimeError "recursion limit reached")
  | _fuel+1, .edges [] => .ok ()
  | fuel+1, .edges (e :: es) =>
      match cc h m fuel (.edge e) with
      | .error err => .error err
      | .ok _ => cc h m fuel (.edges es)
  | fuel+1, .edge (.maybe _ v) =>
      match v with
      | none => .ok ()
      | some i => cc h m fuel (.node i)
  | fuel+1, .edge (.one t v) =>
      match v with
      | none => .error (.notWellFormed ("One edge of type " ++ t ++ " is empty"))
      | some i => cc h m fuel (.node i)
  | fuel+1, .edge (.anyE t v) => cc h m fuel (.elems t v)
  | fuel+1, .edge (.manyE t v) =>
      if v.isEmpty then .error (.notWellFormed ("Many edge of type " ++ t ++ " is empty"))
      else cc h m fuel (.elems t v)
  | _fuel+1, .edge (.optlink t v) =>
      match v with
      | none => .ok ()
      | some i =>
          match pmGet m (some i) t with
          | .error err => .error err
          | .ok _ => .ok ()
  | _fuel+1, .edge (.link t v) =>
      match v with
      | none => .error (.notWellFormed ("Link edge of type " ++ t ++ " is empty"))
      | some i =>
          match pmGet m (some i) t with
          | .error err => .error err
          | .ok _ => .ok ()
  | _fuel+1, .elems _ [] => .ok ()
  | fuel+1, .elems t (x :: xs) =>
      match x with
      | none => .error (.notWellFormed ("One edge of type " ++ t ++ " is empty"))
      | some i =>
          match cc h m fuel (.node i) with
          | .error err => .error err
          | .ok _ => cc h m fuel (.elems t xs)
  | fuel+1, .node i =>
      match lookupNode h i with
      | none => .error (.runtimeError "owning edge points outside the heap")
      | some nd => cc h m fuel (.edges nd.edges)

/-- Modelled from the spec: `Completable::check_well_formed` (defined in
tree-base.cpp, not under src/) composes Phase 1 on a fresh PointerMap
with Phase 2 on the resulting map, exactly as the serialize entry point
in src does inline. -/
def checkWellFormed (h : Heap) (fuel : Nat) (root : Edge) : Except Err Unit :=
  match fr h fuel (.edge root) [] with
  | .error err => .error err
  | .ok m => cc h m fuel (.edge root)

/-- Abstract wire values produced and consumed by the out-of-scope CBOR
writer/reader: nested maps, arrays, strings, signed integers and null. -/
inductive CValue where
  | null
  | int (n : Int)
  | str (s : String)
  | arr (elems : List CValue)
  | map (entries : List (String × CValue))
deriving Repr

/-- Reads a key from an encoded map (the abstract `MapReader::at`,
returning `none` where the C++ reader would fail on a missing key). -/
def lookupCV (entries : List (String × CValue)) (key : String) : Option CValue :=
  List.lookup key entries

/-- Work items of the serialization walk: a single edge, a node body
(the generated per-type `serialize`, emitting the node type tag and the
encoded edge members), and a run of fields starting at index `k`. -/
inductive SerTask where
  | edge (e : Edge)
  | node (i : NodeId)
  | fieldsF (k : Nat) (es : List Edge)
deriving Repr

/-- The serialization walk, translated from tree-base.hpp.
`Maybe::serialize` emits the `@T` tag, then either `@t : null` when
empty or the sequence id under `@i` followed by the node fields merged
into the same map. `Any::serialize` emits `@d` as an array of
per-element maps, each element encoded as a One edge.
`OptLink::serialize` emits `@T` and then, unconditionally, `@l` from an
identity-map lookup of its current target (this mirrors the source,
which performs no emptiness check before `ids.get`). The node level is
modelled from the spec (generated per-type code, not under src/): it
emits a non-null node type tag under `@t` and each edge member under a
field key. -/
def ser (h : Heap) (ids : PM) : Nat → SerTask → Except Err (List (String × CValue))
  | 0, _ => .error (.runtimeError "recursion limit reached")
  | fuel+1, .edge (.maybe t v) =>
      match v with
      | none => .ok [("@T", .str "?"), ("@t", .null)]
      | some i =>
          match pmGet ids (some i) t with
          | .error err => .error err
          | .ok n =>
              match ser h ids fuel (.node i) with
              | .error err => .error err
              | .ok fs => .ok (("@T", .str "?") :: ("@i", .int (n : Int)) :: fs)
  | fuel+1, .edge (.one t v) =>
      match v with
      | none => .ok [("@T", .str "1"), ("@t", .null)]
      | some i =>
          match pmGet ids (some i) t with
          | .error err => .error err
          | .ok n =>
              match ser h ids fuel (.node i) with
              | .error err => .error err
              | .ok fs => .ok (("@T", .str "1") :: ("@i", .int (n : Int)) :: fs)
  | fuel+1, .edge (.anyE t xs) =>
      match ser h ids fuel (.fieldsF 0 (xs.map (fun x => Edge.one t x))) with
      | .error err => .error err
      | .ok fs => .ok [("@T", .str "*"), ("@d", .arr (fs.map (fun p => p.2)))]
  | fuel+1, .edge (.manyE t xs) =>
      match ser h ids fuel (.fieldsF 0 (xs.map (fun x => Edge.one t x))) with
      | .error err => .error err
      | .ok fs => .ok [("@T", .str "+"), ("@d", .arr (fs.map (fun p => p.2)))]
  | _fuel+1, .edge (.optlink t v) =>
      match pmGet ids v t with
      | .error err => .error err
      | .ok n => .ok [("@T", .str "@"), ("@l", .int (n : Int))]
  | _fuel+1, .edge (.link t v) =>
      match pmGet ids v t with
      | .error err => .error err
      | .ok n => .ok [("@T", .str "$"), ("@l", .int (n : Int))]
  | fuel+1, .node i =>
      match lookupNode h i with
      | none => .error (.runtimeError "owning edge points outside the heap")
      | some nd =>
          match ser h ids fuel (.fieldsF 0 nd.edges) with
          | .error err => .error err
          | .ok fs => .ok (("@t", .str "Node") :: fs)
  | _fuel+1, .fieldsF _ [] => .ok []
  | fuel+1, .fieldsF k (e :: es) =>
      match ser h ids fuel (.edge e) with
      | .error err => .error err
      | .ok ents =>
          match ser h ids fuel (.fieldsF (k+1) es) with
          | .error err => .error err
          | .ok rest => .ok (("f" ++ toString k, .map ents) :: rest)

/-- The serialization entry point, translated from tree-base.hpp:
build a fresh PointerMap by Phase-1 reachability, reject incomplete
trees by Phase 2, then walk the tree again emitting the tagged
encoding. -/
def serializeTree (h : Heap) (fuel : Nat) (root : Edge) : Except Err CValue :=
  match fr h fuel (.edge root) [] with
  | .error err => .error err
  | .ok ids =>
      match cc h ids fuel (.edge root) with
      | .error err => .error err
      | .ok _ =>
          match ser h ids fuel (.edge root) with
          | .error err => .error err
          | .ok ents => .ok (.map ents)

/-- The six edge kinds, as statically known to each C++ edge class. -/
inductive EK where
  | mb | on | an | mn | ol | lk
deriving DecidableEq, Repr

/-- The `@T` wire tag each edge kind expects (`serdes_edge_type`). -/
def tagOf : EK → String
  | .mb => "?"
  | .on => "1"
  | .an => "*"
  | .mn => "+"
  | .ol => "@"
  | .lk => "$"

/-- Recovers an edge kind from a wire tag (used to stand in for the
statically known field kinds of the generated node types, which are not
under src/). -/
def ekOfTag (s : String) : Option EK :=
  if s = "?" then some .mb
  else if s = "1" then some .on
  else if s = "*" then some .an
  else if s = "+" then some .mn
  else if s = "@" then some .ol
  else if s = "$" then some .lk
  else none

/-- Decoder state: the freshly constructed heap, the next free node
identity, the IdentifierMap contents (persisted sequence number to
constructed node), and the pending list of link edges awaiting
resolution, each recorded as (owner node, edge index, target id). -/
structure DecSt where
  heap : Heap
  next : NodeId
  idmap : List (Nat × NodeId)
  pending : List (NodeId × Nat × Nat)
deriving Repr

/-- The empty decoder state at the start of `deserialize`. -/
def initSt : DecSt := ⟨[], 0, [], []⟩

/-- Modelled from the spec: `IdentifierMap::register_node` (defined in
tree-base.cpp, not under src/) records a constructed node under its
persisted sequence number. -/
def registerNode (ident : Nat) (nid : NodeId) (st : DecSt) : DecSt :=
  { st with idmap := (ident, nid) :: st.idmap }

/-- Collects, for a freshly allocated node, the pending-link entries of
its decoded edge members (the generated code registers each link edge
together with its persisted `@l` target id). -/
def collectPend (nid : NodeId) : Nat → List (Edge × Option Nat) → List (NodeId × Nat × Nat)
  | _, [] => []
  | k, (_, none) :: fs => collectPend nid (k+1) fs
  | k, (_, some ident) :: fs => (nid, k, ident) :: collectPend nid (k+1) fs

/-- Work items of the decoder: an edge with its statically expected
kind, a node body, a run of fields from index `k`, and the elements of
an encoded `@d` array. -/
inductive DecTask where
  | edge (k : EK) (v : CValue)
  | node (v : CValue)
  | fields (k : Nat) (v : CValue)
  | elems (items : List CValue)
deriving Repr

/-- Decoder results, one constructor per work item: a decoded edge with
its pending link target id (if any), a constructed node identity, a run
of decoded fields, and decoded One elements. -/
inductive DecOut where
  | edge (e : Edge) (pend : Option Nat)
  | node (i : NodeId)
  | fields (fs : List (Edge × Option Nat))
  | elems (xs : List (Option NodeId))
deriving Repr

/-- The decoder, translated from the `deserialize` members in
tree-base.hpp. Every edge decode first validates that the encoded `@T`
tag equals the statically expected one, failing with a plain
RuntimeError (schema error) otherwise. `Maybe::deserialize` reads `@t`:
null means empty, anything else decodes the node from the same map and
registers it under the `@i` sequence number. `Any::deserialize` decodes
each `@d` element as a One edge. `(Opt)Link::deserialize` resets the
link; the surrounding generated code (modelled from the spec, not under
src/) queues the link with its `@l` target id, when that field is
present, for the later resolution pass. The node body decode is
modelled from the spec (generated per-type code): it requires a string
node type tag under `@t`, decodes each field edge (field kinds taken
from the encoded tags, since the generated schema is not under src/),
then allocates the node bottom-up in the fresh heap. -/
def dec : Nat → DecTask → DecSt → Except Err (DecOut × DecSt)
  | 0, _, _ => .error (.runtimeError "recursion limit reached")
  | fuel+1, .edge k v, st =>
      match v with
      | .map entries =>
          match lookupCV entries "@T" with
          | some (.str s) =>
              if s = tagOf k then
                match k with
                | .mb | .on =>
                    match lookupCV entries "@t" with
                    | some .null =>
                        .ok (.edge (if k = .mb then .maybe "Node" none else .one "Node" none) none, st)
                    | some _ =>
                        match dec fuel (.node v) st with
                        | .error err => .error err
                        | .ok (.node i, st1) =>
                            match lookupCV entries "@i" with
                            | some (.int n) =>
                                .ok (.edge (if k = .mb then .maybe "Node" (some i) else .one "Node" (some i)) none,
                                     registerNode n.toNat i st1)
                            | _ => .error (.runtimeError "missing or invalid sequence id")
                        | .ok _ => .error (.runtimeError "internal decoder mismatch")
                    | none => .error (.runtimeError "missing node type tag")
                | .an | .mn =>
                    match lookupCV entries "@d" with
                    | some (.arr items) =>
                        match dec fuel (.elems items) st with
                        | .error err => .error err
                        | .ok (.elems xs, st1) =>
                            .ok (.edge (if k = .an then .anyE "Node" xs else .manyE "Node" xs) none, st1)
                        | .ok _ => .error (.runtimeError "internal decoder mismatch")
                    | _ => .error (.runtimeError "missing or invalid element array")
                | .ol | .lk =>
                    match lookupCV entries "@l" with
                    | some (.int n) =>
                        .ok (.edge (if k = .ol then .optlink "Node" none else .link "Node" none) (some n.toNat), st)
                    | none =>
                        .ok (.edge (if k = .ol then .optlink "Node" none else .link "Node" none) none, st)
                    | some _ => .error (.runtimeError "invalid link target id")
              else .error (.runtimeError "Schema validation failed: unexpected edge type")
          | _ => .error (.runtimeError "missing or invalid edge type tag")
      | _ => .error (.runtimeError "expected a map")
  | fuel+1, .node v, st =>
      match v with
      | .map entries =>
          match lookupCV entries "@t" with
          | some (.str _) =>
              match dec fuel (.fields 0 v) st with
              | .error err => .error err
              | .ok (.fields fs, st1) =>
                  let nid := st1.next
                  .ok (.node nid,
                       { st1 with
                          heap := st1.heap ++ [(nid, ⟨fs.map (fun p => p.1)⟩)],
                          next := nid + 1,
                          pending := st1.pending ++ collectPend nid 0 fs })
              | .ok _ => .error (.runtimeError "internal decoder mismatch")
          | _ => .error (.runtimeError "missing or invalid node type tag")
      | _ => .error (.runtimeError "expected a map")
  | fuel+1, .fields k v, st =>
      match v with
      | .map entries =>
          match lookupCV entries ("f" ++ toString k) with
          | none => .ok (.fields [], st)
          | some fv =>
              match fv with
              | .map fents =>
                  match lookupCV fents "@T" with
                  | some (.str s) =>
                      match ekOfTag s with
                      | none => .error (.runtimeError "missing or invalid edge type tag")
                      | some ek =>
                          match dec fuel (.edge ek fv) st with
                          | .error err => .error err
                          | .ok (.edge e pend, st1) =>
                              match dec fuel (.fields (k+1) v) st1 with
                              | .error err => .error err
                              | .ok (.fields fs, st2) => .ok (.fields ((e, pend) :: fs), st2)
                              | .ok _ => .error (.runtimeError "internal decoder mismatch")
                          | .ok _ => .error (.runtimeError "internal decoder mismatch")
                  | _ => .error (.runtimeError "missing or invalid edge type tag")
              | _ => .error (.runtimeError "expected a map")
      | _ => .error (.runtimeError "expected a map")
  | _fuel+1, .elems [], st => .ok (.elems [], st)
  | fuel+1, .elems (it :: its), st =>
      match dec fuel (.edge .on it) st with
      | .error err => .error err
      | .ok (.edge e _, st1) =>
          match dec fuel (.elems its) st1 with
          | .error err => .error err
          | .ok (.elems xs, st2) =>
              .ok (.elems ((match e with | .one _ v => v | _ => none) :: xs), st2)
          | .ok _ => .error (.runtimeError "internal decoder mismatch")
      | .ok _ => .error (.runtimeError "internal decoder mismatch")

/-- Rewrites the edge at index `k` of a node edge list to point its
link at the resolved target (`LinkBase::set_void_ptr`). -/
def setLinkEdges : Nat → NodeId → List Edge → List Edge
  | _, _, [] => []
  | 0, target, e :: es =>
      (match e with
       | .optlink t _ => .optlink t (some target)
       | .link t _ => .link t (some target)
       | other => other) :: es
  | k+1, target, e :: es => e :: setLinkEdges k target es

/-- Injects a resolved link target into the heap at the recorded owner
node and edge index. -/
def updateHeap (hp : Heap) (nid : NodeId) (k : Nat) (target : NodeId) : Heap :=
  hp.map (fun p => if p.1 = nid then (p.1, ⟨setLinkEdges k target p.2.edges⟩) else p)

/-- Modelled from the spec: `IdentifierMap::restore_links` (defined in
tree-base.cpp, not under src/). One resolution pass over the pending
list: look each target id up in the identifier map and inject the
resolved node into the corresponding link edge; a missing id is a
structural error (corrupt or foreign reference). -/
def restoreGo : List (NodeId × Nat × Nat) → List (Nat × NodeId) → Heap → Except Err Heap
  | [], _, hp => .ok hp
  | (nid, k, ident) :: rest, idmap, hp =>
      match List.lookup ident idmap with
      | none => .error (.notWellFormed "link identifier does not map to a constructed node")
      | some target => restoreGo rest idmap (updateHeap hp nid k target)

/-- The deserialization entry point, translated from tree-base.hpp:
decode the root Maybe edge (staging nodes in the identifier map and
links in the pending list), run link restoration, then run the full
well-formedness check on the result; any failure aborts the whole
operation. -/
def deserializeTree (fuel : Nat) (v : CValue) : Except Err (Heap × Edge) :=
  match dec fuel (.edge .mb v) initSt with
  | .error err => .error err
  | .ok (.edge root _, st) =>
      match restoreGo st.pending st.idmap st.heap with
      | .error err => .error err
      | .ok hp =>
          match checkWellFormed hp fuel root with
          | .error err => .error err
          | .ok _ => .ok (hp, root)
  | .ok _ => .error (.runtimeError "internal decoder mismatch")

/-- Inserts an element before index `k` of a list, shifting the later
elements (`std::vector::emplace` at `cbegin() + k`). -/
def insIdx {α : Type} : Nat → α → List α → List α
  | 0, x, l => x :: l
  | _+1, x, [] => [x]
  | k+1, x, y :: l => y :: insIdx k x l

/-- Erases the element at index `k` of a list
(`std::vector::erase` at `cbegin() + k`). -/
def delIdx {α : Type} : Nat → List α → List α
  | _, [] => []
  | 0, _ :: l => l
  | k+1, y :: l => y :: delIdx k l

/-- `Any::add`, translated from tree-base.hpp: a no-op when the given
reference is empty; otherwise appends when the position is negative or
at least the current size, and inserts at the position otherwise. The
vector elements are One references, themselves possibly empty. -/
def anyAdd (v : List (Option NodeId)) (ob : Option NodeId) (pos : Int) : List (Option NodeId) :=
  match ob with
  | none => v
  | some x =>
      if pos < 0 then v ++ [some x]
      else if v.length ≤ pos.toNat then v ++ [some x]
      else insIdx pos.toNat (some x) v

/-- `Any::remove`, translated from tree-base.hpp: a no-op on an empty
vector; otherwise a negative or out-of-range position is clamped to the
last index before erasing. -/
def anyRemove (v : List (Option NodeId)) (pos : Int) : List (Option NodeId) :=
  if v.length = 0 then v
  else if pos < 0 then delIdx (v.length - 1) v
  else if v.length ≤ pos.toNat then delIdx (v.length - 1) v
  else delIdx pos.toNat v

/-- `Any::at`, translated from tree-base.hpp: bounds-checked indexing
(`std::vector::at`), failing with an out-of-range error beyond the
size. -/
def anyAt : List (Option NodeId) → Nat → Except Err (Option NodeId)
  | [], _ => .error (.outOfRange "vector index out of range")
  | x :: _, 0 => .ok x
  | _ :: l, k+1 => anyAt l k

/-- `Any::front`, translated from tree-base.hpp: an empty Maybe when
the vector is empty, otherwise a copy of the first reference. -/
def anyFront : List (Option NodeId) → Option NodeId
  | [] => none
  | x :: _ => x

/-- `Any::back`, translated from tree-base.hpp: an empty Maybe when the
vector is empty, otherwise a copy of the last reference. -/
def anyBack (v : List (Option NodeId)) : Option NodeId :=
  match v.getLast? with
  | none => none
  | some x => x

/-- Runs a series of `Any::add` calls, in order, against a vector. -/
def applyAdds : List (Option NodeId × Int) → List (Option NodeId) → List (Option NodeId)
  | [], v => v
  | (ob, pos) :: rest, v => applyAdds rest (anyAdd v ob pos)

/-- A concrete well-formed graph: node 0 whose only edge member is an
empty optional link. Phase 1 and Phase 2 both accept it. -/
def g1heap : Heap := [(0, ⟨[Edge.optlink "T" none]⟩)]

/-- The root edge of `g1heap`: a filled Maybe owning node 0. -/
def g1root : Edge := .maybe "T" (some 0)

/-- A concrete two-node heap used to exercise the Phase-1 traversal:
node 1 has no edges, node 2 owns node 1 through a Maybe edge. -/
def g5heap : Heap := [(1, ⟨[]⟩), (2, ⟨[Edge.maybe "T" (some 1)]⟩)]

theorem insIdx_eq_take_drop {α : Type} :
    ∀ (k : Nat) (x : α) (l : List α), k ≤ l.length →
      insIdx k x l = l.take k ++ x :: l.drop k := by
  intro k x l
  induction l generalizing k with
  | nil =>
      intro hk
      have : k = 0 := by simpa using hk
      subst this
      simp [insIdx]
  | cons y l ih =>
      intro hk
      cases k with
      | zero => simp [insIdx]
      | succ k =>
          simp only [List.length_cons, Nat.succ_le_succ_iff] at hk
          simp [insIdx, ih k hk]

theorem delIdx_eq_take_drop {α : Type} :
    ∀ (k : Nat) (l : List α), delIdx k l = l.take k ++ l.drop (k+1) := by
  intro k l
  induction l generalizing k with
  | nil => simp [delIdx]
  | cons y l ih =>
      cases k with
      | zero => simp [delIdx]
      | succ k => simp [delIdx, ih k]

theorem delIdx_last {α : Type} (l : List α) (hne : l ≠ []) :
    delIdx (l.length - 1) l = l.dropLast := by
  rw [delIdx_eq_take_drop, List.dropLast_eq_take]
  have hlen : 0 < l.length := List.length_pos.mpr hne
  have : l.length - 1 + 1 = l.length := by omega
  rw [this, List.drop_length, List.append_nil]

theorem anyAt_out_of_range :
    ∀ (l : List (Option NodeId)) (k : Nat), l.length ≤ k →
      anyAt l k = .error (.outOfRange "vector index out of range") := by
  intro l
  induction l with
  | nil => intro k _; rfl
  | cons x l ih =>
      intro k hk
      cases k with
      | zero => simp at hk
      | succ k =>
          simp only [List.length_cons, Nat.succ_le_succ_iff] at hk
          simpa [anyAt] using ih k hk

theorem mem_insIdx {α : Type} :
    ∀ (k : Nat) (x e : α) (l : List α), e ∈ insIdx k x l → e = x ∨ e ∈ l := by
  intro k x e l
  induction l generalizing k with
  | nil =>
      cases k <;> simp [insIdx]
  | cons y l ih =>
      cases k with
      | zero =>
          simp only [insIdx, List.mem_cons]
          tauto
      | succ k =>
          simp only [insIdx, List.mem_cons]
          intro hm
          rcases hm with hm | hm
          · right; left; exact hm
          · rcases ih k hm with hm2 | hm2
            · left; exact hm2
            · right; right; exact hm2

theorem anyAdd_mem (v : List (Option NodeId)) (ob : Option NodeId) (pos : Int)
    (e : Option NodeId) (hm : e ∈ anyAdd v ob pos) :
    e ∈ v ∨ e = ob := by
  cases ob with
  | none => left; simpa [anyAdd] using hm
  | some x =>
      simp only [anyAdd] at hm
      split at hm
      · rcases List.mem_append.mp hm with hv | hx
        · left; exact hv
        · right; simpa using hx
      · split at hm
        · rcases List.mem_append.mp hm with hv | hx
          · left; exact hv
          · right; simpa using hx
        · rcases mem_insIdx _ _ _ _ hm with he | he
          · right; exact he
          · left; exact he

theorem applyAdds_no_empty :
    ∀ (ops : List (Option NodeId × Int)) (v : List (Option NodeId)),
      (∀ e ∈ v, e ≠ none) → ∀ e ∈ applyAdds ops v, e ≠ none := by
  intro ops
  induction ops with
  | nil => intro v hv; simpa [applyAdds] using hv
  | cons op rest ih =>
      intro v hv e hm
      rcases op with ⟨ob, pos⟩
      refine ih (anyAdd v ob pos) ?_ e hm
      intro e2 hm2
      rcases anyAdd_mem v ob pos e2 hm2 with h2 | h2
      · exact hv e2 h2
      · cases ob with
        | none => subst h2; exact absurd (by simpa [anyAdd] using hm2) (fun hx => hv none hx rfl)
        | some x => subst h2; simp

/-- Claim C7: for every sequence edge and index `i`, indexing at or
beyond the size raises a bounds error, while `front()` and `back()` on
an empty sequence return an empty Maybe reference and never raise. -/
theorem C7_bounds (v : List (Option NodeId)) (i : Nat) :
    (v.length ≤ i → anyAt v i = .error (.outOfRange "vector index out of range")) ∧
    anyFront ([] : List (Option NodeId)) = none ∧
    anyBack ([] : List (Option NodeId)) = none := by
  refine ⟨fun hi => anyAt_out_of_range v i hi, rfl, rfl⟩

/-- Witness for C7 at the empty vector and index 0. -/
theorem C7_bounds_witness :
    anyAt [] 0 = .error (.outOfRange "vector index out of range") ∧
    anyFront ([] : List (Option NodeId)) = none ∧
    anyBack ([] : List (Option NodeId)) = none := by
  have h := C7_bounds [] 0
  exact ⟨h.1 (by decide), h.2.1, h.2.2⟩

/-- Claim C8: adding a non-empty reference with a negative or
out-of-range position appends at the end; with an in-range position it
inserts at that index, shifting the later elements and preserving the
order of the existing ones. -/
theorem C8_add (v : List (Option NodeId)) (x : NodeId) (pos : Int) :
    ((pos < 0 ∨ (v.length : Int) ≤ pos) → anyAdd v (some x) pos = v ++ [some x]) ∧
    (0 ≤ pos → pos < (v.length : Int) →
      anyAdd v (some x) pos = v.take pos.toNat ++ some x :: v.drop pos.toNat) := by
  constructor
  · intro hp
    rcases hp with hp | hp
    · simp [anyAdd, hp]
    · have hp0 : ¬ pos < 0 := by omega
      have hlen : v.length ≤ pos.toNat := by omega
      simp [anyAdd, hp0, hlen]
  · intro hp0 hplen
    have hp0n : ¬ pos < 0 := by omega
    have hlt : pos.toNat < v.length := by omega
    have hnle : ¬ v.length ≤ pos.toNat := by omega
    simp only [anyAdd, hp0n, if_false, hnle]
    exact insIdx_eq_take_drop pos.toNat (some x) v (Nat.le_of_lt hlt)

/-- Witness for C8 at a two-element vector: appending with position -1
and inserting at position 1. -/
theorem C8_add_witness :
    anyAdd [some 10, some 11] (some 12) (-1) = [some 10, some 11, some 12] ∧
    anyAdd [some 10, some 11] (some 12) 1 = [some 10, some 12, some 11] := by
  constructor
  · exact (C8_add [some 10, some 11] 12 (-1)).1 (by left; decide)
  · exact (C8_add [some 10, some 11] 12 1).2 (by decide) (by decide)

/-- Claim C9: adding an empty Maybe to a sequence edge is a no-op, so
every element present after any series of add calls, starting from the
empty sequence a default-constructed Any holds, is a non-empty
reference. -/
theorem C9_add_empty :
    (∀ (v : List (Option NodeId)) (pos : Int), anyAdd v none pos = v) ∧
    (∀ (ops : List (Option NodeId × Int)) (e : Option NodeId),
      e ∈ applyAdds ops [] → e ≠ none) := by
  constructor
  · intro v pos; rfl
  · intro ops e hm
    exact applyAdds_no_empty ops [] (by simp) e hm

/-- Witness for C9: the no-op instance and a concrete add series whose
every surviving element is non-empty. -/
theorem C9_add_empty_witness :
    anyAdd [some 3] none 0 = [some 3] ∧
    ((some 5 : Option NodeId) ≠ none) := by
  constructor
  · exact C9_add_empty.1 [some 3] 0
  · exact C9_add_empty.2 [(none, 0), (some 5, -1)] (some 5) (by decide)

/-- Claim C10: removing from an empty sequence edge is a no-op and does
not raise; on a non-empty sequence a negative or out-of-range position
removes the last element, and an in-range position removes the element
at that position. -/
theorem C10_remove (v : List (Option NodeId)) (pos : Int) :
    anyRemove [] pos = [] ∧
    (v ≠ [] → (pos < 0 ∨ (v.length : Int) ≤ pos) → anyRemove v pos = v.dropLast) ∧
    (0 ≤ pos → pos < (v.length : Int) →
      anyRemove v pos = v.take pos.toNat ++ v.drop (pos.toNat + 1)) := by
  refine ⟨rfl, ?_, ?_⟩
  · intro hne hp
    have hlen : v.length ≠ 0 := fun h0 => hne (List.length_eq_zero.mp h0)
    rcases hp with hp | hp
    · simp only [anyRemove, hlen, if_false, hp, if_true]
      exact delIdx_last v hne
    · have hp0 : ¬ pos < 0 := by omega
      have hle : v.length ≤ pos.toNat := by omega
      simp only [anyRemove, hlen, if_false, hp0, hle, if_true]
      exact delIdx_last v hne
  · intro hp0 hplen
    have hlen : v.length ≠ 0 := by omega
    have hp0n : ¬ pos < 0 := by omega
    have hnle : ¬ v.length ≤ pos.toNat := by omega
    simp only [anyRemove, hlen, if_false, hp0n, hnle]
    exact delIdx_eq_take_drop pos.toNat v

theorem fr_eq_append_po (h : Heap) :
    ∀ (fuel : Nat) (task : FRTask) (m mr : PM),
      fr h fuel task m = .ok mr → mr = m ++ po h fuel task := by
  intro fuel
  induction fuel with
  | zero =>
      intro task m mr hok
      simp [fr] at hok
  | succ fuel ih =>
      intro task m mr hok
      match task with
      | .edges [] =>
          simp only [fr, Except.ok.injEq] at hok
          simp [po, ← hok]
      | .edges (e :: es) =>
          simp only [fr] at hok
          cases h1 : fr h fuel (.edge e) m with
          | error err => rw [h1] at hok; simp at hok
          | ok m1 =>
              rw [h1] at hok
              simp only [] at hok
              have hm1 := ih (.edge e) m m1 h1
              have hm2 := ih (.edges es) m1 mr hok
              simp [po, hm2, hm1, List.append_assoc]
      | .edge (.maybe t v) =>
          simp only [fr] at hok
          have := ih (.fill t v) m mr hok
          simpa [po] using this
      | .edge (.one t v) =>
          simp only [fr] at hok
          have := ih (.fill t v) m mr hok
          simpa [po] using this
      | .edge (.anyE t v) =>
          simp only [fr] at hok
          have := ih (.elems t v) m mr hok
          simpa [po] using this
      | .edge (.manyE t v) =>
          simp only [fr] at hok
          have := ih (.elems t v) m mr hok
          simpa [po] using this
      | .edge (.optlink t v) =>
          simp only [fr, Except.ok.injEq] at hok
          simp [po, ← hok]
      | .edge (.link t v) =>
          simp only [fr, Except.ok.injEq] at hok
          simp [po, ← hok]
      | .elems t [] =>
          simp only [fr, Except.ok.injEq] at hok
          simp [po, ← hok]
      | .elems t (x :: xs) =>
          simp only [fr] at hok
          cases h1 : fr h fuel (.fill t x) m with
          | error err => rw [h1] at hok; simp at hok
          | ok m1 =>
              rw [h1] at hok
              simp only [] at hok
              have hm1 := ih (.fill t x) m m1 h1
              have hm2 := ih (.elems t xs) m1 mr hok
              simp [po, hm2, hm1, List.append_assoc]
      | .fill t none =>
          simp only [fr, Except.ok.injEq] at hok
          simp [po, ← hok]
      | .fill t (some i) =>
          simp only [fr] at hok
          by_cases hi : i ∈ m
          · simp [pmAdd, hi] at hok
          · simp only [pmAdd, hi, if_false] at hok
            cases h1 : lookupNode h i with
            | none => rw [h1] at hok; simp at hok
            | some nd =>
                rw [h1] at hok
                simp only [] at hok
                have := ih (.edges nd.edges) (m ++ [i]) mr hok
                simp [po, h1, this, List.append_assoc]

/-- Claim C5: the Phase-1 reachability traversal follows only owning
edges — a link edge registers nothing and is not traversed through —
and a successful traversal registers exactly the owning-edge DFS
pre-order after the already-registered identities, each registration
receiving the next sequence number; registering an already-registered
identity makes the traversal fail immediately with NotWellFormed. -/
theorem C5_find_reachable (h : Heap) :
    (∀ (fuel : Nat) (t : String) (v : Option NodeId) (m : PM),
      fr h (fuel+1) (.edge (.optlink t v)) m = .ok m ∧
      fr h (fuel+1) (.edge (.link t v)) m = .ok m) ∧
    (∀ (fuel : Nat) (task : FRTask) (m mr : PM),
      fr h fuel task m = .ok mr → mr = m ++ po h fuel task) ∧
    (∀ (m : PM) (i : NodeId) (t : String), i ∉ m →
      pmAdd m i t = .ok (m ++ [i], m.length)) ∧
    (∀ (fuel : Nat) (t : String) (i : NodeId) (m : PM), i ∈ m →
      fr h (fuel+1) (.fill t (some i)) m =
        .error (.notWellFormed ("duplicate node of type " ++ t))) := by
  refine ⟨?_, fr_eq_append_po h, ?_, ?_⟩
  · intro fuel t v m
    exact ⟨rfl, rfl⟩
  · intro m i t hi
    simp [pmAdd, hi]
  · intro fuel t i m hi
    simp [fr, pmAdd, hi]

/-- Witness for C5 on the concrete heap `g5heap`: a successful
traversal from node 2 registers the pre-order [2, 1], and registering
node 1 a second time fails with the duplicate-node error. -/
theorem C5_find_reachable_witness :
    ([2, 1] : PM) = [] ++ po g5heap 5 (.fill "T" (some 2)) ∧
    fr g5heap 3 (.fill "T" (some 1)) [1] =
      .error (.notWellFormed ("duplicate node of type " ++ "T")) := by
  constructor
  · exact (C5_find_reachable g5heap).2.1 5 (.fill "T" (some 2)) [] [2, 1] rfl
  · exact (C5_find_reachable g5heap).2.2.2 2 "T" 1 [1] (by decide)

/-- Claim C2 (code bug in the source): serializing an empty optional
link does not produce a map with tag `@` and no target field; the
source unconditionally emits `@l` from an identity-map lookup of the
null target, which was never registered, so the serialization of any
tree holding an empty OptLink fails with the dangling-link
NotWellFormed error instead. -/
theorem C2_empty_optlink_serialize (h : Heap) (ids : PM) (t : String) (fuel : Nat) :
    ser h ids (fuel+1) (.edge (.optlink t none)) =
      .error (.notWellFormed ("link to node of type " ++ t ++ " not reachable from the root")) := by
  simp [ser, pmGet]

/-- Claim C1 (code bug in the source): the graph `g1heap`/`g1root` is
well-formed (both validator phases accept it), yet serializing it fails
with a NotWellFormed error raised while encoding its empty optional
link, so `deserialize(serialize(G))` cannot succeed for every
well-formed graph G and the round-trip property fails. -/
theorem C1_roundtrip_fails_on_empty_optlink :
    checkWellFormed g1heap 9 g1root = .ok () ∧
    serializeTree g1heap 9 g1root =
      .error (.notWellFormed "link to node of type T not reachable from the root") :=
  ⟨rfl, rfl⟩

/-- Claim C4: decoding any edge whose encoded `@T` tag differs from the
statically expected tag fails with the schema RuntimeError, whose
dynamic type is distinct from the well-formedness error NotWellFormed. -/
theorem C4_schema_mismatch (fuel : Nat) (k : EK) (entries : List (String × CValue))
    (st : DecSt) (s : String)
    (h1 : lookupCV entries "@T" = some (.str s)) (h2 : s ≠ tagOf k) :
    dec (fuel+1) (.edge k (.map entries)) st =
      .error (.runtimeError "Schema validation failed: unexpected edge type") ∧
    (∀ msg, Err.runtimeError "Schema validation failed: unexpected edge type" ≠
      Err.notWellFormed msg) := by
  constructor
  · simp [dec, h1, h2]
  · intro msg hcontra
    cases hcontra

/-- Witness for C4: a Maybe edge (expecting tag `?`) decoded from a map
carrying tag `*`. -/
theorem C4_schema_mismatch_witness :
    dec 1 (.edge .mb (.map [("@T", .str "*")])) initSt =
      .error (.runtimeError "Schema validation failed: unexpected edge type") :=
  (C4_schema_mismatch 0 .mb [("@T", .str "*")] initSt "*" rfl (by decide)).1

/-- Claim C6: an empty Exactly-one or One-or-more edge fails the
completeness check (and hence `check_well_formed`) with a structural
error naming the edge element type, while the Phase-1 traversal accepts
it; graph construction itself cannot fail in the model because the
constructors and mutators are total functions, mirroring the source
constructors and mutators, which contain no throw. -/
theorem C6_mandatory_empty (t : String) (h : Heap) (m : PM) (fuel : Nat) :
    cc h m (fuel+1) (.edge (.one t none)) =
      .error (.notWellFormed ("One edge of type " ++ t ++ " is empty")) ∧
    cc h m (fuel+1) (.edge (.manyE t [])) =
      .error (.notWellFormed ("Many edge of type " ++ t ++ " is empty")) ∧
    fr h (fuel+2) (.edge (.one t none)) m = .ok m ∧
    fr h (fuel+2) (.edge (.manyE t [])) m = .ok m ∧
    checkWellFormed h (fuel+2) (.one t none) =
      .error (.notWellFormed ("One edge of type " ++ t ++ " is empty")) := by
  refine ⟨rfl, by simp [cc], rfl, rfl, ?_⟩
  simp [checkWellFormed, fr, cc]

/-- Claim C3: `deserialize` decodes, then restores links, then runs the
full well-formedness check; a failure at any stage makes the whole
operation fail with that error, and a successful result has passed the
full well-formedness check, so there is no partial result. -/
theorem C3_stages (fuel : Nat) (v : CValue) :
    (∀ e, dec fuel (.edge .mb v) initSt = .error e →
      deserializeTree fuel v = .error e) ∧
    (∀ root p st e, dec fuel (.edge .mb v) initSt = .ok (.edge root p, st) →
      restoreGo st.pending st.idmap st.heap = .error e →
      deserializeTree fuel v = .error e) ∧
    (∀ root p st hp e, dec fuel (.edge .mb v) initSt = .ok (.edge root p, st) →
      restoreGo st.pending st.idmap st.heap = .ok hp →
      checkWellFormed hp fuel root = .error e →
      deserializeTree fuel v = .error e) ∧
    (∀ hp root, deserializeTree fuel v = .ok (hp, root) →
      checkWellFormed hp fuel root = .ok ()) := by
  refine ⟨?_, ?_, ?_, ?_⟩
  · intro e h1
    simp [deserializeTree, h1]
  · intro root p st e h1 h2
    simp [deserializeTree, h1, h2]
  · intro root p st hp e h1 h2 h3
    simp [deserializeTree, h1, h2, h3]
  · intro hp root hok
    unfold deserializeTree at hok
    split at hok
    · exact absurd hok (by simp)
    · split at hok
      · exact absurd hok (by simp)
      · split at hok
        · exact absurd hok (by simp)
        · rename_i root1 p1 st1 h1 hp1 h2 u h3
          rw [Except.ok.injEq, Prod.mk.injEq] at hok
          obtain ⟨hh, hr⟩ := hok
          subst hh; subst hr
          cases u
          exact h3
    · exact absurd hok (by simp)

/-- Witness for C3: on input null the decode stage fails and
`deserialize` propagates exactly that error. -/
theorem C3_stages_witness :
    deserializeTree 1 CValue.null = .error (.runtimeError "expected a map") :=
  (C3_stages 1 CValue.null).1 _ rfl

/-- Witness for C10 at a two-element vector: the empty no-op, removing
the back with position 5, and removing index 0. -/
theorem C10_remove_witness :
    anyRemove [] 2 = ([] : List (Option NodeId)) ∧
    anyRemove [some 7, some 8] 5 = [some 7] ∧
    anyRemove [some 7, some 8] 0 = [some 8] := by
  refine ⟨(C10_remove [] 2).1, ?_, ?_⟩
  · exact ((C10_remove [some 7, some 8] 5).2.1 (by decide) (by right; decide)).trans (by decide)
  · exact ((C10_remove [some 7, some 8] 0).2.2 (by decide) (by decide)).trans (by decide)

end TreeBase
